import Mathlib

/-!
Verification development for the cv_pom element-merge and relational query
engine (file `cv_pom/cv_pom.py`).

The Python source is shallowly embedded:
* rectangles `[xmin, ymin, xmax, ymax]` become the `Rect` structure
  (index 0 ↦ `xmin`, 1 ↦ `ymin`, 2 ↦ `xmax`, 3 ↦ `ymax`);
* `POMElement` becomes a Lean structure with the same eight fields;
  machine floats (`confidence`) are modelled as rationals — no claim here
  depends on floating-point rounding, only on equality of stored values;
* Python dicts (`attrs`, query specifications) become association lists in
  insertion order; dict content equality is equality of `lookup`;
* list-building loops become `List.filter` / `List.flatMap` / folds that
  preserve the Python iteration order;
* `raise` becomes `Except.error`.
Each `def` carries the name of the Python callable it embeds.
-/

/-- Axis-aligned rectangle, the Python list `[xmin, ymin, xmax, ymax]`. -/
structure Rect where
  xmin : Int
  ymin : Int
  xmax : Int
  ymax : Int
deriving Repr, DecidableEq

/-- Embedding of `POM._do_rect_share_space(rect1, rect2)`:
`not (rect1[2] < rect2[0] or rect1[0] > rect2[2] or rect1[3] < rect2[1] or rect1[1] > rect2[3])`. -/
def do_rect_share_space (rect1 rect2 : Rect) : Bool :=
  !(decide (rect1.xmax < rect2.xmin) || decide (rect1.xmin > rect2.xmax) ||
    decide (rect1.ymax < rect2.ymin) || decide (rect1.ymin > rect2.ymax))

/-- Embedding of `POM._do_rect1_contain_rect2(rect1, rect2)`:
`rect2[2] < rect1[2] and rect2[0] > rect1[0] and rect2[3] < rect1[3] and rect2[1] > rect1[1]`. -/
def do_rect1_contain_rect2 (rect1 rect2 : Rect) : Bool :=
  decide (rect2.xmax < rect1.xmax) && decide (rect2.xmin > rect1.xmin) &&
  decide (rect2.ymax < rect1.ymax) && decide (rect2.ymin > rect1.ymin)

/-- Embedding of the `POMElement` dataclass.  `attrs` is an association list in
dict insertion order; all attribute values appearing in this core are strings
(the only key the engine ever writes or reads is `"text"`). -/
structure POMElement where
  id : String
  label : String
  coords_tl : Int × Int
  coords_br : Int × Int
  center : Int × Int
  bounding_rect : Int × Int × Int × Int
  confidence : Rat
  attrs : List (String × String)
deriving Repr, DecidableEq

/-- The rectangle `[e.coords_tl[0], e.coords_tl[1], e.coords_br[0], e.coords_br[1]]`
built from an element at the call sites of the geometry helpers. -/
def elemRect (e : POMElement) : Rect :=
  ⟨e.coords_tl.1, e.coords_tl.2, e.coords_br.1, e.coords_br.2⟩

/-- C6: `shareSpace` is true unless the rectangles are separated along one axis,
it is symmetric, and boundary touching counts as overlap
(`shareSpace([0,0,10,10],[10,10,12,12])` is true). -/
theorem share_space_separation_symm_boundary_C6 :
    (∀ a b : Rect,
      (do_rect_share_space a b = false ↔
        (a.xmax < b.xmin ∨ a.xmin > b.xmax ∨ a.ymax < b.ymin ∨ a.ymin > b.ymax))) ∧
    (∀ a b : Rect, do_rect_share_space a b = do_rect_share_space b a) ∧
    do_rect_share_space ⟨0, 0, 10, 10⟩ ⟨10, 10, 12, 12⟩ = true := by
  refine ⟨fun a b => ?_, fun a b => ?_, by decide⟩
  · simp [do_rect_share_space]
    omega
  · simp only [do_rect_share_space]
    by_cases h1 : a.xmax < b.xmin <;> by_cases h2 : a.xmin > b.xmax <;>
      by_cases h3 : a.ymax < b.ymin <;> by_cases h4 : a.ymin > b.ymax <;>
      simp [h1, h2, h3, h4]

/-- C5: strict containment holds iff all four inequalities are strict; a box
touching the outer boundary is not contained; no rectangle strictly contains
itself, in particular `strictlyContains([0,0,10,10],[0,0,10,10])` is false. -/
theorem contain_strict_iff_C5 :
    (∀ outer inner : Rect,
      (do_rect1_contain_rect2 outer inner = true ↔
        (inner.xmax < outer.xmax ∧ inner.xmin > outer.xmin ∧
         inner.ymax < outer.ymax ∧ inner.ymin > outer.ymin))) ∧
    (∀ outer inner : Rect,
      (inner.xmax = outer.xmax ∨ inner.xmin = outer.xmin ∨
       inner.ymax = outer.ymax ∨ inner.ymin = outer.ymin) →
      do_rect1_contain_rect2 outer inner = false) ∧
    (∀ r : Rect, do_rect1_contain_rect2 r r = false) ∧
    do_rect1_contain_rect2 ⟨0, 0, 10, 10⟩ ⟨0, 0, 10, 10⟩ = false := by
  refine ⟨fun outer inner => ?_, fun outer inner h => ?_, fun r => ?_, by decide⟩
  · simp [do_rect1_contain_rect2, and_assoc]
  · simp only [do_rect1_contain_rect2]
    rcases h with h | h | h | h <;> simp [h]
  · simp [do_rect1_contain_rect2]

/-- Closed witness for the boundary-touching hypothesis of
`contain_strict_iff_C5`. -/
theorem contain_strict_iff_C5_witness :
    do_rect1_contain_rect2 ⟨0, 0, 10, 10⟩ ⟨2, 2, 10, 9⟩ = false :=
  contain_strict_iff_C5.2.1 ⟨0, 0, 10, 10⟩ ⟨2, 2, 10, 9⟩ (Or.inl rfl)

/-- Embedding of the `QueryValue` dataclass. -/
structure QueryValue where
  value : String
  case_sensitive : Bool := true
  contains : Bool := false
deriving Repr, DecidableEq

/-- Embedding of the `Query` dataclass; the constructor arguments follow the
field order of the source: label, text, parent, child, left, right, up, down. -/
inductive Query where
  | mk (label : Option QueryValue) (text : Option QueryValue)
       (parent : Option Query) (child : Option Query)
       (left : Option Query) (right : Option Query)
       (up : Option Query) (down : Option Query) : Query

/-- Projection: the `label` field of a `Query`. -/
def Query.label : Query → Option QueryValue
  | .mk l _ _ _ _ _ _ _ => l

/-- Projection: the `text` field of a `Query`. -/
def Query.text : Query → Option QueryValue
  | .mk _ t _ _ _ _ _ _ => t

/-- Projection: the `parent` field of a `Query`. -/
def Query.parent : Query → Option Query
  | .mk _ _ p _ _ _ _ _ => p

/-- Projection: the `child` field of a `Query`. -/
def Query.child : Query → Option Query
  | .mk _ _ _ c _ _ _ _ => c

/-- Projection: the `left` field of a `Query`. -/
def Query.left : Query → Option Query
  | .mk _ _ _ _ l _ _ _ => l

/-- Projection: the `right` field of a `Query`. -/
def Query.right : Query → Option Query
  | .mk _ _ _ _ _ r _ _ => r

/-- Projection: the `up` field of a `Query`. -/
def Query.up : Query → Option Query
  | .mk _ _ _ _ _ _ u _ => u

/-- Projection: the `down` field of a `Query`. -/
def Query.down : Query → Option Query
  | .mk _ _ _ _ _ _ _ d => d

/-- Character-list embedding of the Python operator `needle in hay` on strings:
true iff `needle` is a prefix of some suffix of `hay`. -/
def isSubChars (needle : List Char) : List Char → Bool
  | [] => needle.isEmpty
  | c :: rest => needle.isPrefixOf (c :: rest) || isSubChars needle rest

/-- Embedding of the Python substring test `needle in hay` for strings. -/
def pyIn (needle hay : String) : Bool := isSubChars needle.data hay.data

/-- Embedding of `POM._check_query_value(value, query_val)`. -/
def check_query_value (value : String) (query_val : Option QueryValue) : Bool :=
  match query_val with
  | none => true
  | some qv =>
    let v := if qv.case_sensitive then value else value.toLower
    let expected := if qv.case_sensitive then qv.value else qv.value.toLower
    if qv.contains then pyIn expected v else expected == v

/-- Embedding of the per-element test of the first loop of `POM._filter_query`:
the label must match `query.label`; an element with no `"text"` attribute is
dropped when `query.text` is set; an element with a `"text"` attribute must
match `query.text`. -/
def passes_base (q_label q_text : Option QueryValue) (e : POMElement) : Bool :=
  check_query_value e.label q_label &&
  (match e.attrs.lookup "text" with
   | none => q_text.isNone
   | some t => check_query_value t q_text)

/-- Content equality of Python dicts represented as association lists: every
pair of each side is found by `lookup` on the other side. -/
def dictBeq (d1 d2 : List (String × String)) : Bool :=
  d1.all (fun p => d2.lookup p.1 == some p.2) && d2.all (fun p => d1.lookup p.1 == some p.2)

/-- Embedding of `POMElement.__eq__`: all eight fields equal, `attrs` compared
by dict content. -/
def elemBeq (a b : POMElement) : Bool :=
  a.id == b.id && a.label == b.label && decide (a.coords_tl = b.coords_tl) &&
  decide (a.coords_br = b.coords_br) && decide (a.center = b.center) &&
  decide (a.bounding_rect = b.bounding_rect) && decide (a.confidence = b.confidence) &&
  dictBeq a.attrs b.attrs

/-- Helper for `dedup`: `seen` is the set of keys already inserted into the
dict being built by `dict.fromkeys`. -/
def dedup_seen (seen : List POMElement) : List POMElement → List POMElement
  | [] => []
  | x :: xs =>
    if seen.any (fun y => elemBeq y x) then dedup_seen seen xs
    else x :: dedup_seen (seen ++ [x]) xs

/-- Embedding of `list(dict.fromkeys(l))` over `POMElement` keys: keep the
first occurrence of every element under `POMElement.__eq__`, in order. -/
def dedup (l : List POMElement) : List POMElement := dedup_seen [] l

/-- Embedding of `POM._find_contained_rects(element_1, elements)`. -/
def find_contained_rects (element_1 : POMElement) (elements : List POMElement) :
    List POMElement :=
  elements.filter (fun element => do_rect1_contain_rect2 (elemRect element_1) (elemRect element))

/-- The four independent `if side == ...` checks that the loop body of
`POM._find_rects_sides` runs for one candidate `element` against the anchor
`element_1`; each check appends `element` when its condition holds. -/
def side_matches (element_1 element : POMElement) (side : String) : List POMElement :=
  (if side == "right" &&
      (decide (element.coords_tl.1 > element_1.coords_br.1) &&
       (decide (element.coords_tl.2 < element_1.center.2) &&
        decide (element_1.center.2 < element.coords_br.2)))
   then [element] else []) ++
  (if side == "left" &&
      (decide (element_1.coords_tl.1 > element.coords_br.1) &&
       (decide (element.coords_tl.2 < element_1.center.2) &&
        decide (element_1.center.2 < element.coords_br.2)))
   then [element] else []) ++
  (if side == "up" &&
      (decide (element_1.coords_tl.2 < element.coords_br.2) &&
       (decide (element.coords_tl.1 < element_1.center.1) &&
        decide (element_1.center.1 < element.coords_br.1)))
   then [element] else []) ++
  (if side == "down" &&
      (decide (element_1.coords_br.2 > element.coords_tl.2) &&
       (decide (element.coords_tl.1 < element_1.center.1) &&
        decide (element_1.center.1 < element.coords_br.1)))
   then [element] else [])

/-- Embedding of `POM._find_rects_sides(element_1, elements, side)`. -/
def find_rects_sides (element_1 : POMElement) (elements : List POMElement)
    (side : String) : List POMElement :=
  elements.flatMap (fun element => side_matches element_1 element side)

/-- Embedding of `POM._filter_query(query)` over an explicit element store:
base label/text filter, then the six optional relation steps in source order
(child, parent, left, right, up, down), each sub-query evaluated recursively
against the full original store `elements`. -/
def filter_query (elements : List POMElement) : Query → List POMElement
  | .mk lab txt par chi lef rig upv dow =>
    let filtered := elements.filter (passes_base lab txt)
    let filtered :=
      match chi with
      | none => filtered
      | some q =>
        let filtered_child := filter_query elements q
        filtered.flatMap (fun element => find_contained_rects element filtered_child)
    let filtered :=
      match par with
      | none => filtered
      | some q =>
        let filtered_parent := filter_query elements q
        dedup (filtered_parent.filter
          (fun element => decide (0 < (find_contained_rects element filtered).length)))
    let filtered :=
      match lef with
      | none => filtered
      | some q =>
        let filtered_left := filter_query elements q
        dedup (filtered.flatMap (fun element => find_rects_sides element filtered_left "left"))
    let filtered :=
      match rig with
      | none => filtered
      | some q =>
        let filtered_right := filter_query elements q
        dedup (filtered.flatMap (fun element => find_rects_sides element filtered_right "right"))
    let filtered :=
      match upv with
      | none => filtered
      | some q =>
        let filtered_up := filter_query elements q
        dedup (filtered.flatMap (fun element => find_rects_sides element filtered_up "up"))
    let filtered :=
      match dow with
      | none => filtered
      | some q =>
        let filtered_down := filter_query elements q
        dedup (filtered.flatMap (fun element => find_rects_sides element filtered_down "down"))
    filtered

/-- Concatenation of a `flatMap` whose body yields a singleton or nothing is a
filter. -/
theorem flatMap_if_singleton {α : Type} (p : α → Bool) (l : List α) :
    (l.flatMap fun x => if p x then [x] else []) = l.filter p := by
  induction l with
  | nil => rfl
  | cons x xs ih => by_cases h : p x <;> simp [h, ih]

/-- With the literal side `"right"` only the first check of the loop body of
`_find_rects_sides` can fire. -/
theorem side_matches_right_eq (e1 c : POMElement) :
    side_matches e1 c "right" =
      if decide (c.coords_tl.1 > e1.coords_br.1) &&
         (decide (c.coords_tl.2 < e1.center.2) && decide (e1.center.2 < c.coords_br.2))
      then [c] else [] := by
  simp +decide [side_matches]

/-- With the literal side `"left"` only the second check of the loop body of
`_find_rects_sides` can fire. -/
theorem side_matches_left_eq (e1 c : POMElement) :
    side_matches e1 c "left" =
      if decide (e1.coords_tl.1 > c.coords_br.1) &&
         (decide (c.coords_tl.2 < e1.center.2) && decide (e1.center.2 < c.coords_br.2))
      then [c] else [] := by
  simp +decide [side_matches]

/-- With the literal side `"up"` only the third check of the loop body of
`_find_rects_sides` can fire. -/
theorem side_matches_up_eq (e1 c : POMElement) :
    side_matches e1 c "up" =
      if decide (e1.coords_tl.2 < c.coords_br.2) &&
         (decide (c.coords_tl.1 < e1.center.1) && decide (e1.center.1 < c.coords_br.1))
      then [c] else [] := by
  simp +decide [side_matches]

/-- With the literal side `"down"` only the fourth check of the loop body of
`_find_rects_sides` can fire. -/
theorem side_matches_down_eq (e1 c : POMElement) :
    side_matches e1 c "down" =
      if decide (e1.coords_br.2 > c.coords_tl.2) &&
         (decide (c.coords_tl.1 < e1.center.1) && decide (e1.center.1 < c.coords_br.1))
      then [c] else [] := by
  simp +decide [side_matches]

/-- Anchor element with box `(50,50,60,60)` (center `(55,55)` as built by the
element constructor). -/
def anchorC4 : POMElement :=
  ⟨"0", "anchor", (50, 50), (60, 60), (55, 55), (50, 50, 11, 11), 1, []⟩

/-- Candidate element with box `(62,50,70,60)` (center `(66,55)`). -/
def candRight : POMElement :=
  ⟨"1", "cand", (62, 50), (70, 60), (66, 55), (62, 50, 9, 11), 1, []⟩

/-- Candidate element with box `(40,50,48,60)` (center `(44,55)`). -/
def candLeft : POMElement :=
  ⟨"2", "cand", (40, 50), (48, 60), (44, 55), (40, 50, 9, 11), 1, []⟩

/-- C4: the directional predicate agrees with the specified table for each of
the four sides, and on anchor `(50,50,60,60)` the candidate `(62,50,70,60)`
satisfies only `right` while `(40,50,48,60)` satisfies only `left`. -/
theorem find_rects_sides_table_C4 :
    (∀ (anchor : POMElement) (els : List POMElement),
      find_rects_sides anchor els "right" =
        els.filter fun c => decide (c.coords_tl.1 > anchor.coords_br.1) &&
          (decide (c.coords_tl.2 < anchor.center.2) && decide (anchor.center.2 < c.coords_br.2))) ∧
    (∀ (anchor : POMElement) (els : List POMElement),
      find_rects_sides anchor els "left" =
        els.filter fun c => decide (anchor.coords_tl.1 > c.coords_br.1) &&
          (decide (c.coords_tl.2 < anchor.center.2) && decide (anchor.center.2 < c.coords_br.2))) ∧
    (∀ (anchor : POMElement) (els : List POMElement),
      find_rects_sides anchor els "up" =
        els.filter fun c => decide (anchor.coords_tl.2 < c.coords_br.2) &&
          (decide (c.coords_tl.1 < anchor.center.1) && decide (anchor.center.1 < c.coords_br.1))) ∧
    (∀ (anchor : POMElement) (els : List POMElement),
      find_rects_sides anchor els "down" =
        els.filter fun c => decide (anchor.coords_br.2 > c.coords_tl.2) &&
          (decide (c.coords_tl.1 < anchor.center.1) && decide (anchor.center.1 < c.coords_br.1))) ∧
    find_rects_sides anchorC4 [candRight] "right" = [candRight] ∧
    find_rects_sides anchorC4 [candRight] "left" = [] ∧
    find_rects_sides anchorC4 [candRight] "up" = [] ∧
    find_rects_sides anchorC4 [candRight] "down" = [] ∧
    find_rects_sides anchorC4 [candLeft] "left" = [candLeft] ∧
    find_rects_sides anchorC4 [candLeft] "right" = [] ∧
    find_rects_sides anchorC4 [candLeft] "up" = [] ∧
    find_rects_sides anchorC4 [candLeft] "down" = [] := by
  refine ⟨fun a els => ?_, fun a els => ?_, fun a els => ?_, fun a els => ?_,
    by decide, by decide, by decide, by decide, by decide, by decide, by decide, by decide⟩
  · simp only [find_rects_sides, side_matches_right_eq, flatMap_if_singleton]
  · simp only [find_rects_sides, side_matches_left_eq, flatMap_if_singleton]
  · simp only [find_rects_sides, side_matches_up_eq, flatMap_if_singleton]
  · simp only [find_rects_sides, side_matches_down_eq, flatMap_if_singleton]

/-- C2 counterexample: an unrecognized side token does not abort the relation
step with an error — `_find_rects_sides` is total and returns the empty
candidate list, on the very inputs where the side `"right"` matches. -/
theorem find_rects_sides_unknown_side_counterexample_C2 :
    find_rects_sides anchorC4 [candRight] "diagonal" = [] ∧
    find_rects_sides anchorC4 [candRight] "right" = [candRight] := by
  decide

/-- C2 amended: for every anchor, candidate list and side string other than
the four recognized tokens, `_find_rects_sides` returns the empty list (a
normal value, not an error). -/
theorem find_rects_sides_unknown_side_empty_C2 :
    ∀ (element_1 : POMElement) (elements : List POMElement) (side : String),
      side ≠ "left" → side ≠ "right" → side ≠ "up" → side ≠ "down" →
      find_rects_sides element_1 elements side = [] := by
  intro e1 els side h1 h2 h3 h4
  induction els with
  | nil => rfl
  | cons x xs ih =>
    simp only [find_rects_sides, List.flatMap_cons] at ih ⊢
    rw [ih]
    simp [side_matches, h1, h2, h3, h4]

/-- Closed witness for `find_rects_sides_unknown_side_empty_C2` at the side
token `"sideways"`. -/
theorem find_rects_sides_unknown_side_empty_C2_witness :
    find_rects_sides anchorC4 [candRight] "sideways" = [] :=
  find_rects_sides_unknown_side_empty_C2 anchorC4 [candRight] "sideways"
    (by decide) (by decide) (by decide) (by decide)

/-- Correctness of the embedded Python substring test on character lists. -/
theorem isSubChars_iff (needle hay : List Char) :
    isSubChars needle hay = true ↔ ∃ l r : List Char, hay = l ++ needle ++ r := by
  induction hay with
  | nil =>
    simp only [isSubChars, List.isEmpty_iff]
    constructor
    · rintro rfl
      exact ⟨[], [], rfl⟩
    · rintro ⟨l, r, h⟩
      rcases List.append_eq_nil.mp h.symm with ⟨h1, -⟩
      exact (List.append_eq_nil.mp h1).2
  | cons c rest ih =>
    simp only [isSubChars, Bool.or_eq_true, List.isPrefixOf_iff_prefix, ih]
    constructor
    · rintro (⟨t, ht⟩ | ⟨l, r, hr⟩)
      · exact ⟨[], t, ht.symm⟩
      · exact ⟨c :: l, r, by simp [hr]⟩
    · rintro ⟨l, r, h⟩
      match l, h with
      | [], h => exact Or.inl ⟨r, by simpa using h.symm⟩
      | d :: l', h =>
        rcases List.cons_eq_cons.mp h with ⟨-, h2⟩
        exact Or.inr ⟨l', r, h2⟩

/-- C7: string matching — an absent rule always matches; with
`case_sensitive = false` both sides are lower-cased first; with
`contains = true` the rule matches iff its value occurs as a substring;
otherwise exact equality is required; and whenever `query.text` is set the
base filter drops every element lacking a `"text"` attribute. -/
theorem check_query_value_matching_C7 :
    (∀ value : String, check_query_value value none = true) ∧
    (∀ (value expected : String) (ct : Bool),
      check_query_value value (some ⟨expected, false, ct⟩) =
        check_query_value value.toLower (some ⟨expected.toLower, true, ct⟩)) ∧
    (∀ value expected : String,
      (check_query_value value (some ⟨expected, true, true⟩) = true ↔
        ∃ l r : List Char, value.data = l ++ expected.data ++ r)) ∧
    (∀ value expected : String,
      (check_query_value value (some ⟨expected, true, false⟩) = true ↔ value = expected)) ∧
    (∀ (els : List POMElement) (q_label : Option QueryValue) (tq : QueryValue)
       (e : POMElement), e ∈ els.filter (passes_base q_label (some tq)) →
      (e.attrs.lookup "text").isSome = true) := by
  refine ⟨fun value => rfl, fun value expected ct => rfl,
    fun value expected => ?_, fun value expected => ?_,
    fun els q_label tq e he => ?_⟩
  · simpa [check_query_value, pyIn] using isSubChars_iff expected.data value.data
  · constructor
    · intro h
      exact (beq_iff_eq.mp (by simpa [check_query_value] using h)).symm
    · rintro rfl
      simp [check_query_value]
  · have hp : passes_base q_label (some tq) e = true := (List.mem_filter.mp he).2
    simp only [passes_base, Bool.and_eq_true] at hp
    rcases hp with ⟨-, hp2⟩
    cases hl : e.attrs.lookup "text" with
    | none => rw [hl] at hp2; simp at hp2
    | some t => rfl

/-- Closed witness for the hypotheses of `check_query_value_matching_C7`:
an element that survives a base filter with a text rule set has a `"text"`
attribute. -/
theorem check_query_value_matching_C7_witness :
    (((⟨"0", "a", (0, 0), (4, 4), (2, 2), (0, 0, 5, 5), 1,
        [("text", "hi")]⟩ : POMElement)).attrs.lookup "text").isSome = true :=
  check_query_value_matching_C7.2.2.2.2
    [⟨"0", "a", (0, 0), (4, 4), (2, 2), (0, 0, 5, 5), 1, [("text", "hi")]⟩]
    none ⟨"hi", true, false⟩
    ⟨"0", "a", (0, 0), (4, 4), (2, 2), (0, 0, 5, 5), 1, [("text", "hi")]⟩
    (by decide)

/-- Specification-side stable deduplication: keep each first occurrence in
original order, removing every later element equal (under `POMElement.__eq__`)
to an earlier one. -/
def firstOccurs : List POMElement → List POMElement
  | [] => []
  | x :: xs => x :: firstOccurs (xs.filter fun y => !(elemBeq x y))
termination_by l => l.length
decreasing_by
  simp only [List.length_cons]
  exact Nat.lt_succ_of_le (List.length_filter_le _ _)

/-- The dict-building embedding of `list(dict.fromkeys(l))` computes the
subsequence of first occurrences of the suffix not already seen. -/
theorem dedup_seen_eq_firstOccurs (l : List POMElement) :
    ∀ seen : List POMElement,
      dedup_seen seen l =
        firstOccurs (l.filter fun z => !(seen.any fun y => elemBeq y z)) := by
  induction l with
  | nil => intro seen; simp [dedup_seen, firstOccurs]
  | cons x xs ih =>
    intro seen
    by_cases h : (seen.any fun y => elemBeq y x) = true
    · rw [show dedup_seen seen (x :: xs) = dedup_seen seen xs from by
        simp [dedup_seen, h]]
      rw [ih seen]
      congr 1
      simp [List.filter_cons, h]
    · have hx : (seen.any fun y => elemBeq y x) = false := by simpa using h
      rw [show dedup_seen seen (x :: xs) = x :: dedup_seen (seen ++ [x]) xs from by
        simp [dedup_seen, hx]]
      rw [ih (seen ++ [x])]
      rw [show ((x :: xs).filter fun z => !(seen.any fun y => elemBeq y z)) =
          x :: (xs.filter fun z => !(seen.any fun y => elemBeq y z)) from by
        simp [List.filter_cons, hx]]
      rw [firstOccurs]
      congr 1
      rw [List.filter_filter]
      have hfil : List.filter (fun z => !((seen ++ [x]).any fun y => elemBeq y z)) xs =
          List.filter (fun a => !(elemBeq x a) && !(seen.any fun y => elemBeq y a)) xs := by
        refine List.filter_congr ?_
        intro z hz
        simp only [List.any_append, List.any_cons, List.any_nil, Bool.or_false,
          Bool.not_or]
        rw [Bool.and_comm]
      rw [hfil]

/-- First parent fixture: box `(0,0,100,100)` labelled `box`. -/
def pBox1 : POMElement :=
  ⟨"0", "box", (0, 0), (100, 100), (50, 50), (0, 0, 101, 101), 1, []⟩

/-- Second parent fixture: box `(1,1,99,99)` labelled `box`, overlapping the
first so that both strictly contain the inner fixture. -/
def pBox2 : POMElement :=
  ⟨"1", "box", (1, 1), (99, 99), (50, 50), (1, 1, 99, 99), 1, []⟩

/-- Inner fixture: box `(10,10,20,20)` labelled `c`, strictly inside both
parent fixtures. -/
def cInner : POMElement :=
  ⟨"2", "c", (10, 10), (20, 20), (15, 15), (10, 10, 11, 11), 1, []⟩

/-- Query `{label: box, child: {label: c}}` over the parent/inner fixtures. -/
def qChildC8 : Query :=
  .mk (some ⟨"box", true, false⟩) none none
    (some (.mk (some ⟨"c", true, false⟩) none none none none none none none))
    none none none none

/-- Candidate fixture for the left step: box `(0,0,10,10)` labelled `l`. -/
def lCand : POMElement :=
  ⟨"0", "l", (0, 0), (10, 10), (5, 5), (0, 0, 11, 11), 1, []⟩

/-- First anchor fixture: box `(20,0,30,10)` labelled `a`; `lCand` is to its
left. -/
def aAnchor1 : POMElement :=
  ⟨"1", "a", (20, 0), (30, 10), (25, 5), (20, 0, 11, 11), 1, []⟩

/-- Second anchor fixture: box `(40,0,50,10)` labelled `a`; `lCand` is to its
left as well. -/
def aAnchor2 : POMElement :=
  ⟨"2", "a", (40, 0), (50, 10), (45, 5), (40, 0, 11, 11), 1, []⟩

/-- Query `{label: a, left: {label: l}}` over the anchor fixtures. -/
def qLeftC8 : Query :=
  .mk (some ⟨"a", true, false⟩) none none none
    (some (.mk (some ⟨"l", true, false⟩) none none none none none none none))
    none none none

/-- C8: the deduplication used after the parent/left/right/up/down steps is
exactly the stable first-occurrence subsequence under structural equality; the
child step performs no deduplication (a child contained in two matching
parents appears twice), while the left step does deduplicate (a candidate to
the left of two matching anchors appears once). -/
theorem dedup_stable_first_occurrence_C8 :
    (∀ l : List POMElement, dedup l = firstOccurs l) ∧
    filter_query [pBox1, pBox2, cInner] qChildC8 = [cInner, cInner] ∧
    filter_query [lCand, aAnchor1, aAnchor2] qLeftC8 = [lCand] := by
  refine ⟨fun l => ?_, by decide, by decide⟩
  have h := dedup_seen_eq_firstOccurs l []
  simpa [dedup] using h

/-- The child relation step of `_filter_query`: when present, replace the
working set by the sub-query matches (evaluated against the full store)
strictly contained in some currently filtered element; no deduplication. -/
def childStep (elements : List POMElement) (sub : Option Query)
    (filtered : List POMElement) : List POMElement :=
  match sub with
  | none => filtered
  | some q =>
    let filtered_child := filter_query elements q
    filtered.flatMap fun element => find_contained_rects element filtered_child

/-- The parent relation step of `_filter_query`: when present, replace the
working set by the sub-query matches that strictly contain at least one
currently filtered element, then deduplicate. -/
def parentStep (elements : List POMElement) (sub : Option Query)
    (filtered : List POMElement) : List POMElement :=
  match sub with
  | none => filtered
  | some q =>
    let filtered_parent := filter_query elements q
    dedup (filtered_parent.filter
      fun element => decide (0 < (find_contained_rects element filtered).length))

/-- A directional relation step of `_filter_query` (`side` is one of the four
tokens): when present, replace the working set by all sub-query matches on the
given side of some currently filtered element, then deduplicate. -/
def sideStep (elements : List POMElement) (sub : Option Query) (side : String)
    (filtered : List POMElement) : List POMElement :=
  match sub with
  | none => filtered
  | some q =>
    let sub_els := filter_query elements q
    dedup (filtered.flatMap fun element => find_rects_sides element sub_els side)

/-- Base-matching fixture for C1: box `(50,50,60,60)` labelled `a`. -/
def aElC1 : POMElement :=
  ⟨"0", "a", (50, 50), (60, 60), (55, 55), (50, 50, 11, 11), 1, []⟩

/-- Parent fixture for C1: box `(40,40,70,70)` labelled `p`, strictly
containing `aElC1` but not `lElC1`. -/
def pElC1 : POMElement :=
  ⟨"1", "p", (40, 40), (70, 70), (55, 55), (40, 40, 31, 31), 1, []⟩

/-- Left fixture for C1: box `(0,45,30,65)` labelled `l`, to the left of both
`aElC1` and `pElC1`, outside `pElC1`. -/
def lElC1 : POMElement :=
  ⟨"2", "l", (0, 45), (30, 65), (15, 55), (0, 45, 31, 21), 1, []⟩

/-- Sub-query `{label: p}`. -/
def pQC1 : Query := .mk (some ⟨"p", true, false⟩) none none none none none none none

/-- Sub-query `{label: l}`. -/
def lQC1 : Query := .mk (some ⟨"l", true, false⟩) none none none none none none none

/-- Query `{label: a, parent: {label: p}, left: {label: l}}`. -/
def qC1 : Query :=
  .mk (some ⟨"a", true, false⟩) none (some pQC1) none (some lQC1) none none none

/-- C1: evaluation is the base filter followed by the relation steps in the
fixed order child, parent, left, right, up, down, each step replacing the
working set and each sub-query evaluated against the full original store; on
the fixture, the parent-then-left order yields `[lElC1]` while applying left
before parent would yield `[]`. -/
theorem filter_query_fixed_order_C1 :
    (∀ (elements : List POMElement) (q : Query),
      filter_query elements q =
        sideStep elements q.down "down"
          (sideStep elements q.up "up"
            (sideStep elements q.right "right"
              (sideStep elements q.left "left"
                (parentStep elements q.parent
                  (childStep elements q.child
                    (elements.filter (passes_base q.label q.text)))))))) ∧
    filter_query [aElC1, pElC1, lElC1] qC1 = [lElC1] ∧
    parentStep [aElC1, pElC1, lElC1] (some pQC1)
      (sideStep [aElC1, pElC1, lElC1] (some lQC1) "left"
        ([aElC1, pElC1, lElC1].filter
          (passes_base (some ⟨"a", true, false⟩) none))) = [] := by
  refine ⟨fun elements q => ?_, by decide, by decide⟩
  cases q with
  | mk lab txt par chi lef rig upv dow =>
    cases par <;> cases chi <;> cases lef <;> cases rig <;> cases upv <;> cases dow <;>
      simp only [filter_query, childStep, parentStep, sideStep, Query.label,
        Query.text, Query.parent, Query.child, Query.left, Query.right,
        Query.up, Query.down]

/-- Values a query-specification dict can hold: strings, booleans, integers,
and nested dicts (association lists in insertion order). -/
inductive JVal where
  | s (v : String) : JVal
  | b (v : Bool) : JVal
  | n (v : Int) : JVal
  | obj (fields : List (String × JVal)) : JVal

/-- Python truthiness (`bool(item)`) for the modelled values. -/
def truthy : JVal → Bool
  | .s v => !(v == "")
  | .b v => v
  | .n v => decide (v ≠ 0)
  | .obj fields => !fields.isEmpty

/-- String payload of a specification value.  The source stores the raw value
in `QueryValue.value`; every value the engine is given here is a string, so
the embedding extracts it (non-strings have no claim-relevant behaviour). -/
def strOf : JVal → String
  | .s v => v
  | _ => ""

/-- Building a `QueryValue` from a rule object whose `"value"` entry is `v`:
`case_sensitive` and `contains` are overridden by truthiness when present. -/
def queryValueOf (fields : List (String × JVal)) (v : JVal) : QueryValue :=
  { value := strOf v,
    case_sensitive := match fields.lookup "case_sensitive" with
      | some cs => truthy cs
      | none => true,
    contains := match fields.lookup "contains" with
      | some ct => truthy ct
      | none => false }

/-- Embedding of `setattr(query, key, query_val)` for the `label`/`text`
branch of `_parse_query` (only called with those two keys). -/
def setQueryValue (q : Query) (key : String) (qv : QueryValue) : Query :=
  match q with
  | .mk lab txt par chi lef rig upv dow =>
    if key = "label" then .mk (some qv) txt par chi lef rig upv dow
    else if key = "text" then .mk lab (some qv) par chi lef rig upv dow
    else q

/-- Embedding of `setattr(query, key, query_in)` for the relation branch of
`_parse_query`; `setattr` on a key that is not a declared relation field adds
an attribute the evaluator never reads, so it leaves the query unchanged. -/
def setSubQuery (q : Query) (key : String) (sub : Query) : Query :=
  match q with
  | .mk lab txt par chi lef rig upv dow =>
    if key = "parent" then .mk lab txt (some sub) chi lef rig upv dow
    else if key = "child" then .mk lab txt par (some sub) lef rig upv dow
    else if key = "left" then .mk lab txt par chi (some sub) rig upv dow
    else if key = "right" then .mk lab txt par chi lef (some sub) upv dow
    else if key = "up" then .mk lab txt par chi lef rig (some sub) dow
    else if key = "down" then .mk lab txt par chi lef rig upv (some sub)
    else q

/-- The fresh `Query()` with all fields `None`. -/
def emptyQuery : Query := .mk none none none none none none none none

/-- Embedding of `POM._parse_query` as a fold over the dict items in insertion
order starting from `q`; a `label`/`text` rule object without a `"value"`
entry raises (the source message is the string
"Query object doesn\x27t have \x27value\x27 field"). -/
def parse_query (q : Query) : List (String × JVal) → Except String Query
  | [] => .ok q
  | (key, item) :: rest =>
    if key = "label" ∨ key = "text" then
      match item with
      | .obj fields =>
        match fields.lookup "value" with
        | none => .error "Query object does not have value field"
        | some v => parse_query (setQueryValue q key (queryValueOf fields v)) rest
      | _ => parse_query (setQueryValue q key ⟨strOf item, true, false⟩) rest
    else
      match item with
      | .obj fields =>
        match parse_query emptyQuery fields with
        | .error e => .error e
        | .ok sub => parse_query (setSubQuery q key sub) rest
      | _ => parse_query q rest

/-- Embedding of `POM.get_elements(query_dict)` over an explicit store:
`None` returns the full store, otherwise the parsed query is evaluated; a
parse error propagates and no element list is produced. -/
def get_elements (elements : List POMElement)
    (query_dict : Option (List (String × JVal))) : Except String (List POMElement) :=
  match query_dict with
  | none => .ok elements
  | some qd =>
    match parse_query emptyQuery qd with
    | .error e => .error e
    | .ok q => .ok (filter_query elements q)

/-- C9: a query specification containing a `label` or `text` rule object that
lacks the `"value"` key makes parsing fail, and `get_elements` propagates the
error: no element list (hence no element) is ever produced for that query and
the store argument is left untouched (the embedding is pure state passing). -/
theorem parse_missing_value_C9 :
    ∀ (elements : List POMElement) (pre post : List (String × JVal))
      (key : String) (fields : List (String × JVal)),
      (key = "label" ∨ key = "text") → fields.lookup "value" = none →
      ∃ msg, get_elements elements (some (pre ++ (key, .obj fields) :: post)) =
        .error msg := by
  intro elements pre post key fields hkey hval
  suffices h : ∀ (q : Query) (pre : List (String × JVal)),
      ∃ msg, parse_query q (pre ++ (key, .obj fields) :: post) = .error msg by
    obtain ⟨msg, hmsg⟩ := h emptyQuery pre
    exact ⟨msg, by simp [get_elements, hmsg]⟩
  intro q pre
  induction pre generalizing q with
  | nil =>
    refine ⟨"Query object does not have value field", ?_⟩
    rcases hkey with rfl | rfl <;> simp [parse_query, hval]
  | cons e rest ih =>
    obtain ⟨k, item⟩ := e
    by_cases hk : k = "label" ∨ k = "text"
    · cases item with
      | obj fields2 =>
        cases hv : fields2.lookup "value" with
        | none =>
          exact ⟨"Query object does not have value field",
            by simp [parse_query, hk, hv]⟩
        | some v =>
          obtain ⟨msg, hmsg⟩ := ih (setQueryValue q k (queryValueOf fields2 v))
          exact ⟨msg, by simp [parse_query, hk, hv, hmsg]⟩
      | s v =>
        obtain ⟨msg, hmsg⟩ := ih (setQueryValue q k ⟨strOf (.s v), true, false⟩)
        exact ⟨msg, by simp [parse_query, hk, hmsg]⟩
      | b v =>
        obtain ⟨msg, hmsg⟩ := ih (setQueryValue q k ⟨strOf (.b v), true, false⟩)
        exact ⟨msg, by simp [parse_query, hk, hmsg]⟩
      | n v =>
        obtain ⟨msg, hmsg⟩ := ih (setQueryValue q k ⟨strOf (.n v), true, false⟩)
        exact ⟨msg, by simp [parse_query, hk, hmsg]⟩
    · cases item with
      | obj fields2 =>
        cases hp : parse_query emptyQuery fields2 with
        | error e2 => exact ⟨e2, by simp [parse_query, hk, hp]⟩
        | ok sub =>
          obtain ⟨msg, hmsg⟩ := ih (setSubQuery q k sub)
          exact ⟨msg, by simp [parse_query, hk, hp, hmsg]⟩
      | s v =>
        obtain ⟨msg, hmsg⟩ := ih q
        exact ⟨msg, by simp [parse_query, hk, hmsg]⟩
      | b v =>
        obtain ⟨msg, hmsg⟩ := ih q
        exact ⟨msg, by simp [parse_query, hk, hmsg]⟩
      | n v =>
        obtain ⟨msg, hmsg⟩ := ih q
        exact ⟨msg, by simp [parse_query, hk, hmsg]⟩

/-- Closed witness for `parse_missing_value_C9` at the literal specification
`{"label": {"case_sensitive": true}}`. -/
theorem parse_missing_value_C9_witness :
    ∃ msg, get_elements []
      (some [("label", .obj [("case_sensitive", .b true)])]) = .error msg :=
  parse_missing_value_C9 [] [] [] "label" [("case_sensitive", .b true)]
    (Or.inl rfl) rfl

/-- An OCR fragment: an axis-aligned box plus recognized text (the entries of
`ref_elements_txt` built in `convert_to_cvpom`). -/
structure OCRFrag where
  rect : Rect
  text : String
deriving Repr, DecidableEq

/-- Embedding of `cv.boundingRect` applied to the two integer points `p1`,
`p2` (inclusive pixel width and height, hence the `+ 1`). -/
def boundingRectPts (p1 p2 : Int × Int) : Int × Int × Int × Int :=
  (min p1.1 p2.1, min p1.2 p2.2,
   max p1.1 p2.1 - min p1.1 p2.1 + 1, max p1.2 p2.2 - min p1.2 p2.2 + 1)

/-- Embedding of `POM._find_overlapping_rects(rect1, sq_w_txt)`. -/
def find_overlapping_rects (rect1 : Rect) (sq_w_txt : List OCRFrag) : List OCRFrag :=
  sq_w_txt.filter fun sq_txt => do_rect_share_space rect1 sq_txt.rect

/-- Embedding of the Python slice `s[:-1]` on a string: drop the last
character (the empty string stays empty). -/
def pyDropLast (s : String) : String := ⟨s.data.dropLast⟩

/-- The text accumulated by the overlapping loop of `convert_to_cvpom`:
`final_text += txt + ' '` over the fragment texts, then `final_text[:-1]`. -/
def joinTexts (ts : List String) : String :=
  pyDropLast (ts.foldl (fun acc t => acc ++ t ++ " ") "")

/-- Python dict assignment `d[k] = v` on an insertion-ordered association
list: overwrite in place when the key exists, else append. -/
def dictInsert (d : List (String × String)) (k v : String) : List (String × String) :=
  if (d.lookup k).isSome then d.map fun p => if p.1 = k then (k, v) else p
  else d ++ [(k, v)]

/-- The per-detector-element body of the overlapping loop of
`convert_to_cvpom`: store the joined text of all fragments sharing space with
the element under `attrs["text"]`. -/
def mergeText (frags : List OCRFrag) (e : POMElement) : POMElement :=
  let txt := joinTexts ((find_overlapping_rects (elemRect e) frags).map OCRFrag.text)
  { e with attrs := dictInsert e.attrs "text" txt }

/-- The element synthesized by `POM._find_non_overlapping_rects` for a
fragment overlapping no detector element (`id` assigned later by the caller). -/
def mkOcrEl (f : OCRFrag) : POMElement :=
  { id := "",
    label := "ocr_element",
    coords_tl := (f.rect.xmin, f.rect.ymin),
    coords_br := (f.rect.xmax, f.rect.ymax),
    center := ((f.rect.xmin + f.rect.xmax).fdiv 2, (f.rect.ymin + f.rect.ymax).fdiv 2),
    bounding_rect := boundingRectPts (f.rect.xmin, f.rect.ymin) (f.rect.xmax, f.rect.ymax),
    confidence := 1,
    attrs := [("text", f.text)] }

/-- Embedding of `POM._find_non_overlapping_rects(pom_els, ocr_els)`. -/
def find_non_overlapping_rects (pom_els : List POMElement) (ocr_els : List OCRFrag) :
    List POMElement :=
  ocr_els.filterMap fun ocr_el =>
    if pom_els.any (fun pom_el => do_rect_share_space (elemRect pom_el) ocr_el.rect)
    then none
    else some (mkOcrEl ocr_el)

/-- Embedding of the append loop of `convert_to_cvpom`: each synthesized OCR
element receives `id = str(len(self.elements))` at the moment it is appended. -/
def appendWithIds (els : List POMElement) : List POMElement → List POMElement
  | [] => els
  | n :: rest => appendWithIds (els ++ [{ n with id := toString els.length }]) rest

/-- Embedding of the OCR branch of `POM.convert_to_cvpom`: merge overlapping
fragment text into every detector element, then append one element per
non-overlapping fragment with sequential ids. -/
def convert_merge (dets : List POMElement) (frags : List OCRFrag) : List POMElement :=
  let els := dets.map (mergeText frags)
  appendWithIds els (find_non_overlapping_rects els frags)

/-- Specification-side indexed relabelling: the `j`-th element of the list
gets id `toString (n + j)`. -/
def idsFrom (n : Nat) : List POMElement → List POMElement
  | [] => []
  | x :: xs => { x with id := toString n } :: idsFrom (n + 1) xs

/-- Relabelled lists have the original length. -/
theorem idsFrom_length (l : List POMElement) : ∀ n, (idsFrom n l).length = l.length := by
  induction l with
  | nil => intro n; rfl
  | cons x xs ih => intro n; simp [idsFrom, ih]

/-- The append loop equals appending the relabelled list. -/
theorem appendWithIds_eq (news : List POMElement) :
    ∀ els, appendWithIds els news = els ++ idsFrom els.length news := by
  induction news with
  | nil => intro els; simp [appendWithIds, idsFrom]
  | cons n rest ih =>
    intro els
    rw [show appendWithIds els (n :: rest) =
        appendWithIds (els ++ [{ n with id := toString els.length }]) rest from rfl]
    rw [ih]
    simp [idsFrom, List.append_assoc]

/-- A `filterMap` that keeps a transformed value exactly when a test fails is
a filter followed by a map. -/
theorem filterMap_if_not {α β : Type} (c : α → Bool) (g : α → β) (l : List α) :
    (l.filterMap fun x => if c x then none else some (g x)) =
      (l.filter fun x => !(c x)).map g := by
  induction l with
  | nil => rfl
  | cons x xs ih => by_cases h : c x <;> simp [h, ih]

/-- Merging text changes no coordinates, so the non-overlap scan over the
merged elements is the scan over the original detector elements. -/
theorem fnol_merged (dets : List POMElement) (frags frs : List OCRFrag) :
    find_non_overlapping_rects (dets.map (mergeText frags)) frs =
      (frs.filter fun f =>
        !(dets.any fun d => do_rect_share_space (elemRect d) f.rect)).map mkOcrEl := by
  have hc : ∀ f : OCRFrag,
      ((dets.map (mergeText frags)).any fun p => do_rect_share_space (elemRect p) f.rect) =
        (dets.any fun d => do_rect_share_space (elemRect d) f.rect) := by
    intro f
    rw [List.any_map]
    rfl
  unfold find_non_overlapping_rects
  rw [show (fun (ocr_el : OCRFrag) =>
      if (dets.map (mergeText frags)).any
          (fun pom_el => do_rect_share_space (elemRect pom_el) ocr_el.rect)
      then (none : Option POMElement)
      else some (mkOcrEl ocr_el)) =
    (fun ocr_el =>
      if dets.any (fun d => do_rect_share_space (elemRect d) ocr_el.rect)
      then none
      else some (mkOcrEl ocr_el)) from funext fun f => by rw [hc f]]
  exact filterMap_if_not _ _ frs

/-- Lookup passes over a prefix in which the key does not occur. -/
theorem lookup_append_of_none {k : String} {d l2 : List (String × String)}
    (h : d.lookup k = none) : (d ++ l2).lookup k = l2.lookup k := by
  induction d with
  | nil => rfl
  | cons p d' ih =>
    obtain ⟨a, b⟩ := p
    simp only [List.cons_append, List.lookup] at h ⊢
    cases hka : (k == a) with
    | true => rw [hka] at h; exact Option.noConfusion h
    | false => rw [hka] at h; exact ih h

/-- Overwriting an existing key in place makes lookup return the new value. -/
theorem lookup_map_overwrite {k v : String} : ∀ d : List (String × String),
    (d.lookup k).isSome = true →
    (d.map fun p => if p.1 = k then (k, v) else p).lookup k = some v := by
  intro d
  induction d with
  | nil => intro h; simp [List.lookup] at h
  | cons p d' ih =>
    obtain ⟨a, b⟩ := p
    intro h
    by_cases hak : a = k
    · subst hak
      have hmap : ((a, b) :: d').map (fun p => if p.1 = a then (a, v) else p) =
          (a, v) :: d'.map (fun p => if p.1 = a then (a, v) else p) := by
        simp
      rw [hmap]
      simp [List.lookup]
    · have hka : (k == a) = false := by
        simp [Ne.symm hak]
      simp only [List.map_cons, if_neg hak]
      simp only [List.lookup] at h ⊢
      rw [hka] at h ⊢
      exact ih h

/-- After Python dict assignment `d[k] = v`, `d[k]` is `v`. -/
theorem lookup_dictInsert (d : List (String × String)) (k v : String) :
    (dictInsert d k v).lookup k = some v := by
  unfold dictInsert
  by_cases h : (d.lookup k).isSome
  · rw [if_pos h]
    exact lookup_map_overwrite d h
  · rw [if_neg h]
    have hn : d.lookup k = none := by
      cases hd : d.lookup k with
      | none => rfl
      | some x => rw [hd] at h; simp at h
    rw [lookup_append_of_none hn]
    simp [List.lookup]

/-- Specification-side accumulator-free form of the text-joining loop. -/
def joinAll : List String → String
  | [] => ""
  | t :: ts => t ++ " " ++ joinAll ts

/-- The fold of the overlapping loop appends `joinAll` to its accumulator. -/
theorem foldl_joinAll : ∀ (ts : List String) (acc : String),
    ts.foldl (fun a t => a ++ t ++ " ") acc = acc ++ joinAll ts := by
  intro ts
  induction ts with
  | nil => intro acc; simp [joinAll]
  | cons t ts ih =>
    intro acc
    simp only [List.foldl_cons, joinAll]
    rw [ih]
    simp [String.append_assoc]

/-- `joinAll` distributes over list concatenation. -/
theorem joinAll_append : ∀ l m : List String, joinAll (l ++ m) = joinAll l ++ joinAll m := by
  intro l m
  induction l with
  | nil => simp [joinAll]
  | cons t l' ih => simp [joinAll, ih, String.append_assoc]

/-- Every nonempty `joinAll` output ends in a single trailing space. -/
theorem joinAll_empty_or_space :
    ∀ ts : List String, joinAll ts = "" ∨ ∃ u, joinAll ts = u ++ " " := by
  intro ts
  induction ts with
  | nil => exact Or.inl rfl
  | cons t ts ih =>
    rcases ih with h | ⟨u, h⟩
    · refine Or.inr ⟨t, ?_⟩
      simp [joinAll, h]
    · refine Or.inr ⟨t ++ " " ++ u, ?_⟩
      simp [joinAll, h, String.append_assoc]

/-- A member of the joined text list occurs contiguously inside the merged
`"text"` attribute value. -/
theorem joinTexts_mem (t : String) (ts : List String) (h : t ∈ ts) :
    ∃ pre suf : List Char, (joinTexts ts).data = pre ++ t.data ++ suf := by
  obtain ⟨l, r, rfl⟩ := List.append_of_mem h
  have hdata : (joinTexts (l ++ t :: r)).data =
      ((joinAll l).data ++ (t.data ++ ([' '] ++ (joinAll r).data))).dropLast := by
    unfold joinTexts pyDropLast
    rw [foldl_joinAll]
    rw [show ("" ++ joinAll (l ++ t :: r)) = joinAll (l ++ t :: r) from by simp]
    rw [joinAll_append]
    simp [joinAll, String.append_assoc]
  rcases joinAll_empty_or_space r with hr | ⟨u, hr⟩
  · refine ⟨(joinAll l).data, [], ?_⟩
    rw [hdata, hr]
    rw [show ((joinAll l).data ++ (t.data ++ ([' '] ++ (("" : String)).data))) =
        ((joinAll l).data ++ t.data) ++ [' '] from by simp [List.append_assoc]]
    simp [List.dropLast_concat]
  · refine ⟨(joinAll l).data, ' ' :: u.data, ?_⟩
    rw [hdata, hr]
    rw [show ((joinAll l).data ++ (t.data ++ ([' '] ++ ((u ++ " ")).data))) =
        ((joinAll l).data ++ t.data ++ (' ' :: u.data)) ++ [' '] from by
      simp [List.append_assoc]]
    have hstep : (' ' :: (u.data ++ [' '])).dropLast = ' ' :: u.data := by
      rw [show (' ' :: (u.data ++ [' '])) = ((' ' :: u.data) ++ [' ']) from rfl]
      exact List.dropLast_concat
    simp [List.dropLast_concat, hstep]

/-- C3: after the merge pass every OCR fragment is represented exactly once —
each fragment sharing space with no detector element is materialized as
exactly one `ocr_element` (confidence 1, the fragment box and text, id the
next sequential index), appended in fragment order after the detector
elements; each fragment sharing space with a detector element has its text
contained in that element's merged `"text"` attribute. -/
theorem convert_merge_ocr_C3 :
    ∀ (dets : List POMElement) (frags : List OCRFrag),
      ((convert_merge dets frags).length =
        dets.length + (frags.filter fun f =>
          !(dets.any fun d => do_rect_share_space (elemRect d) f.rect)).length) ∧
      ((convert_merge dets frags).drop dets.length =
        idsFrom dets.length ((frags.filter fun f =>
          !(dets.any fun d => do_rect_share_space (elemRect d) f.rect)).map mkOcrEl)) ∧
      (∀ f ∈ frags, ∀ (i : Nat) (hi : i < dets.length),
        do_rect_share_space (elemRect (dets.get ⟨i, hi⟩)) f.rect = true →
        ∃ el txt pre suf, (convert_merge dets frags)[i]? = some el ∧
          el.attrs.lookup "text" = some txt ∧
          txt.data = pre ++ f.text.data ++ suf) := by
  intro dets frags
  have hcm : convert_merge dets frags =
      dets.map (mergeText frags) ++
        idsFrom dets.length ((frags.filter fun f =>
          !(dets.any fun d => do_rect_share_space (elemRect d) f.rect)).map mkOcrEl) := by
    unfold convert_merge
    rw [appendWithIds_eq, fnol_merged]
    simp [List.length_map]
  refine ⟨?_, ?_, ?_⟩
  · rw [hcm]
    simp [idsFrom_length, List.length_map]
  · rw [hcm]
    rw [show dets.length = (dets.map (mergeText frags)).length from by
      simp [List.length_map]]
    exact List.drop_left _ _
  · intro f hf i hi hov
    have hget : (convert_merge dets frags)[i]? =
        some (mergeText frags (dets.get ⟨i, hi⟩)) := by
      rw [hcm]
      rw [List.getElem?_append_left (by simpa [List.length_map] using hi)]
      rw [List.getElem?_map]
      rw [List.getElem?_eq_getElem hi]
      simp [List.get_eq_getElem]
    refine ⟨mergeText frags (dets.get ⟨i, hi⟩),
      joinTexts ((find_overlapping_rects (elemRect (dets.get ⟨i, hi⟩)) frags).map
        OCRFrag.text), ?_⟩
    have hmem : f.text ∈ (find_overlapping_rects (elemRect (dets.get ⟨i, hi⟩)) frags).map
        OCRFrag.text := by
      refine List.mem_map_of_mem OCRFrag.text ?_
      unfold find_overlapping_rects
      exact List.mem_filter.mpr ⟨hf, hov⟩
    obtain ⟨pre, suf, hps⟩ := joinTexts_mem f.text _ hmem
    exact ⟨pre, suf, hget, lookup_dictInsert _ _ _, hps⟩

/-- Closed witness for `convert_merge_ocr_C3`: detector box `(0,0,10,10)` and
an overlapping fragment `(0,0,5,5)` with text `Hi`. -/
theorem convert_merge_ocr_C3_witness :
    ∃ el txt pre suf,
      (convert_merge [⟨"0", "button", (0, 0), (10, 10), (5, 5), (0, 0, 11, 11), 1, []⟩]
        [⟨⟨0, 0, 5, 5⟩, "Hi"⟩])[0]? = some el ∧
      el.attrs.lookup "text" = some txt ∧
      txt.data = pre ++ ("Hi" : String).data ++ suf :=
  (convert_merge_ocr_C3
      [⟨"0", "button", (0, 0), (10, 10), (5, 5), (0, 0, 11, 11), 1, []⟩]
      [⟨⟨0, 0, 5, 5⟩, "Hi"⟩]).2.2
    ⟨⟨0, 0, 5, 5⟩, "Hi"⟩ (by decide) 0 (by decide) (by decide)

/-- Membership in an association list with distinct keys is exactly a
successful lookup. -/
theorem mem_iff_lookup : ∀ l : List (String × String),
    (l.map Prod.fst).Nodup → ∀ k v : String, ((k, v) ∈ l ↔ l.lookup k = some v) := by
  intro l
  induction l with
  | nil => intro _ k v; simp [List.lookup]
  | cons p t ih =>
    obtain ⟨a, b⟩ := p
    intro hnd k v
    simp only [List.map_cons, List.nodup_cons] at hnd
    obtain ⟨ha, ht⟩ := hnd
    by_cases hka : k = a
    · subst hka
      have hstep : List.lookup k ((k, b) :: t) = some b := by
        simp [List.lookup]
      constructor
      · intro hm
        rcases List.mem_cons.mp hm with heq | hmem
        · rw [hstep, show v = b from (Prod.mk.injEq _ _ _ _ ▸ heq).2.symm ▸ rfl]
        · exact absurd (List.mem_map_of_mem Prod.fst hmem) (by simpa using ha)
      · intro hl
        rw [hstep] at hl
        rw [Option.some.injEq] at hl
        rw [← hl]
        exact List.mem_cons_self _ _
    · have hbeq : (k == a) = false := by simp [hka]
      have hstep : List.lookup k ((a, b) :: t) = List.lookup k t := by
        simp only [List.lookup]
        rw [hbeq]
      constructor
      · intro hm
        rcases List.mem_cons.mp hm with heq | hmem
        · exact absurd (congrArg Prod.fst heq) hka
        · rw [hstep]
          exact (ih ht k v).mp hmem
      · intro hl
        rw [hstep] at hl
        exact List.mem_cons_of_mem _ ((ih ht k v).mpr hl)

/-- Two dicts (distinct keys) with the same lookup function have the same set
of key-value items. -/
theorem toFinset_eq_of_lookup_eq {d1 d2 : List (String × String)}
    (h1 : (d1.map Prod.fst).Nodup) (h2 : (d2.map Prod.fst).Nodup)
    (h : ∀ k, d1.lookup k = d2.lookup k) : d1.toFinset = d2.toFinset := by
  ext p
  obtain ⟨k, v⟩ := p
  simp only [List.mem_toFinset]
  rw [mem_iff_lookup d1 h1 k v, mem_iff_lookup d2 h2 k v, h k]

/-- The tuple Python hashes in `POMElement.__hash__`: the eight fields with
`attrs` replaced by the frozenset of its items.  Python's `hash` of this
tuple is a pure function of the component values (`frozenset` hashing is
content-based), so equal tuples yield equal hashes. -/
def pyHashInput (e : POMElement) :
    String × String × (Int × Int) × (Int × Int) × (Int × Int) ×
      (Int × Int × Int × Int) × Rat × Finset (String × String) :=
  (e.id, e.label, e.coords_tl, e.coords_br, e.center, e.bounding_rect,
   e.confidence, e.attrs.toFinset)

/-- Structural element equality of `POMElement.__eq__`: all eight fields
equal, `attrs` compared as dicts by content. -/
def pyElemEq (a b : POMElement) : Prop :=
  a.id = b.id ∧ a.label = b.label ∧ a.coords_tl = b.coords_tl ∧
  a.coords_br = b.coords_br ∧ a.center = b.center ∧
  a.bounding_rect = b.bounding_rect ∧ a.confidence = b.confidence ∧
  ∀ k, a.attrs.lookup k = b.attrs.lookup k

/-- C10: for elements whose attribute dicts have distinct keys (as Python
dicts always do), structural equality implies equal hash inputs, so the hash
is a congruence for the equality used by dict-keyed deduplication. -/
theorem hash_congruence_C10 :
    ∀ a b : POMElement,
      (a.attrs.map Prod.fst).Nodup → (b.attrs.map Prod.fst).Nodup →
      pyElemEq a b → pyHashInput a = pyHashInput b := by
  intro a b h1 h2 heq
  obtain ⟨hid, hlab, htl, hbr, hc, hbrect, hconf, hattrs⟩ := heq
  unfold pyHashInput
  rw [hid, hlab, htl, hbr, hc, hbrect, hconf,
    toFinset_eq_of_lookup_eq h1 h2 hattrs]

/-- Element with attrs `{"text": "x", "k": "y"}` in one insertion order. -/
def elA10 : POMElement :=
  ⟨"7", "box", (0, 0), (4, 4), (2, 2), (0, 0, 5, 5), 1, [("text", "x"), ("k", "y")]⟩

/-- The same element with the attrs inserted in the opposite order. -/
def elB10 : POMElement :=
  ⟨"7", "box", (0, 0), (4, 4), (2, 2), (0, 0, 5, 5), 1, [("k", "y"), ("text", "x")]⟩

/-- Closed witness for `hash_congruence_C10`: equal dicts in different
insertion orders give the same hash input. -/
theorem hash_congruence_C10_witness : pyHashInput elA10 = pyHashInput elB10 :=
  hash_congruence_C10 elA10 elB10 (by decide) (by decide)
    ⟨rfl, rfl, rfl, rfl, rfl, rfl, rfl, by
      intro k
      by_cases h1 : k = "text"
      · subst h1; rfl
      · by_cases h2 : k = "k"
        · subst h2; rfl
        · have b1 : (k == "text") = false := by simp [h1]
          have b2 : (k == "k") = false := by simp [h2]
          simp [elA10, elB10, List.lookup, b1, b2]⟩
